import Mathlib

/-!
Shallow embedding of the dependency-resolution component of `rules_js`
(file `gazelle/resolve.go`): the import provider `Imports`, the core
resolution chain `ResolveModuleDeps`, and the serialization helpers.

External registries consulted by the resolver (the override-directive
table, the cross-workspace rule index, the named-package / importable-file
/ npm-package registries, the environment classification and the
validation flag) are supplied by the host tool and the per-package
configuration; they are embedded as read-only lookup functions collected
in `ResolveEnv`.
-/

namespace RulesJS

/-- Embeds the host framework's label type (repository, package, name,
relative flag) identifying one build target. -/
structure Label where
  Repo : String
  Pkg : String
  Name : String
  Relative : Bool
deriving DecidableEq, Repr

/-- Embeds Go `path.Base`: the last element of a slash-separated path,
after trailing slashes are removed; empty input gives "." and an
all-slash input gives "/". -/
def pathBase (p : String) : String :=
  if p = "" then "."
  else
    let l := p.toList.reverse.dropWhile (fun c => c = '/')
    if l = [] then "/"
    else String.mk ((l.takeWhile (fun c => c ≠ '/')).reverse)

/-- Embeds the host framework's `Label.String`: ":name" for relative
labels; otherwise "@repo" (omitted when the repository is empty or "@")
followed by "//pkg", with ":name" appended unless the package's base name
equals the target name. -/
def Label.render (l : Label) : String :=
  if l.Relative then ":" ++ l.Name
  else
    let repo := if l.Repo ≠ "" ∧ l.Repo ≠ "@" then "@" ++ l.Repo else ""
    if pathBase l.Pkg = l.Name then repo ++ "//" ++ l.Pkg
    else repo ++ "//" ++ l.Pkg ++ ":" ++ l.Name

/-- Embeds the host framework's `Label.Rel`: render a label relative to a
repository and package, dropping the repository when it matches and
collapsing to a relative ":name" form when the package matches too. -/
def Label.Rel (l : Label) (repo pkg : String) : Label :=
  if l.Relative ∨ l.Repo ≠ repo then l
  else if l.Pkg = pkg then { Repo := "", Pkg := "", Name := l.Name, Relative := true }
  else { Repo := "", Pkg := l.Pkg, Name := l.Name, Relative := false }

/-- Embeds `ImportStatement`: the module specifier as written in source
plus the originating source file (kept for diagnostics). -/
structure ImportStatement where
  Path : String
  SourcePath : String
deriving DecidableEq, Repr

/-- Modelled from the spec: the per-package environment classification,
`Node` or other (the Go constant `EnvironmentNode` lives in a
configuration file outside the resolution source). -/
inductive EnvironmentType where
  | node
  | other
deriving DecidableEq, Repr

/-- The read-only lookups `ResolveModuleDeps` consults, in the order the
chain tries them: the override-directive table
(`resolve.FindRuleWithOverride`), the first-party index
(`ix.FindRulesByImportWithConfig`, each result's label; embeds are always
empty in this repository so a self-import test is label equality), the
named-package and importable-file registries, the npm-package registry
(`cfg.GetNpmPackage`), the environment classification, the Node built-in
predicate `isNodeImport` (modelled from the spec: membership of the path
in the recognized built-in module names), the validation flag, and the
process-wide `EXPLAIN_DEPENDENCY` value. -/
structure ResolveEnv where
  findRuleWithOverride : String → Option Label
  findRulesByImport : String → List Label
  getNamedPackage : String → Option String
  getImportableFile : String → Option String
  getNpmPackage : String → Option String
  environmentType : EnvironmentType
  nodeImport : String → Bool
  validateImportStatements : Bool
  explainDependency : String

/-- Names the branch of the priority chain that produced a dependency. -/
inductive ResolveRule where
  | overrideDirective
  | firstPartyIndex
  | namedPackage
  | importableFile
  | npmPackage
  | npmTypesAugmentation
  | typesOnly
  | nodeNative
deriving DecidableEq, Repr

/-- One logged line: an explain trace (dependency, requesting target,
source file, import path, producing rule), a fatal-ambiguity error, or a
fatal unresolved-import error. -/
inductive LogEvent where
  | explain (dep target sourcePath importPath : String) (rule : ResolveRule)
  | ambiguityError (targets importPath sourcePath : String)
  | unresolvedError (importPath sourcePath target : String)
deriving DecidableEq, Repr

/-- The effect of resolving one import statement: the dependency strings
added (tagged with the producing rule), the log lines emitted, and
whether the fatal flag was set. -/
structure StepResult where
  adds : List (String × ResolveRule)
  logs : List LogEvent
  fatal : Bool
deriving DecidableEq, Repr

/-- Embeds `targetListFromResults`: comma-joined rendered labels of the
ambiguous candidates. -/
def targetListFromResults (results : List Label) : String :=
  String.intercalate (", ") (results.map Label.render)

/-- Embeds the repeated `if EXPLAIN_DEPENDENCY == dep \x7b log.Printf ... \x7d`
pattern: a singleton explain trace when the added dependency equals the
configured explain target, nothing otherwise. -/
def explainLog (env : ResolveEnv) (frm : Label) (mod : ImportStatement)
    (dep : String) (r : ResolveRule) : List LogEvent :=
  if env.explainDependency = dep then
    [LogEvent.explain dep frm.render mod.SourcePath mod.Path r]
  else []

/-- Embeds the override handling of `ResolveModuleDeps` lines 140-142: an
override with an unset repository defaults to the requesting target's
repository. -/
def overrideDefaulted (o frm : Label) : Label :=
  if o.Repo = "" then { o with Repo := frm.Repo } else o

/-- Embeds `ResolveModuleDeps` lines 144-147: after defaulting, an
override in the requesting target's repository is rendered with the
repository qualifier dropped. -/
def overrideRendered (o frm : Label) : String :=
  let o1 := overrideDefaulted o frm
  (if o1.Repo = frm.Repo then { o1 with Repo := "" } else o1).render

/-- Embeds the body of the `for it.Next()` loop of `ResolveModuleDeps`
(lines 130-236): the first matching rule of the priority chain fires for
the import statement `mod` of the target `frm`. -/
def resolveImport (env : ResolveEnv) (frm : Label) (mod : ImportStatement) : StepResult :=
  match env.findRuleWithOverride mod.Path with
  | some o =>
      if overrideDefaulted o frm = frm then ⟨[], [], false⟩
      else
        let dep := overrideRendered o frm
        ⟨[(dep, ResolveRule.overrideDirective)],
          explainLog env frm mod dep ResolveRule.overrideDirective, false⟩
  | none =>
  match env.findRulesByImport mod.Path with
  | m0 :: rest =>
      match (m0 :: rest).filter (fun m => m ≠ frm) with
      | [m] =>
          let dep := (m.Rel frm.Repo frm.Pkg).render
          ⟨[(dep, ResolveRule.firstPartyIndex)],
            explainLog env frm mod dep ResolveRule.firstPartyIndex, false⟩
      | [] => ⟨[], [], false⟩
      | m1 :: m2 :: more =>
          ⟨[], [LogEvent.ambiguityError (targetListFromResults (m1 :: m2 :: more))
            mod.Path mod.SourcePath], true⟩
  | [] =>
  match env.getNamedPackage mod.Path with
  | some pkg =>
      ⟨[(pkg, ResolveRule.namedPackage)],
        explainLog env frm mod pkg ResolveRule.namedPackage, false⟩
  | none =>
  match env.getImportableFile mod.Path with
  | some pkg =>
      ⟨[(pkg, ResolveRule.importableFile)],
        explainLog env frm mod pkg ResolveRule.importableFile, false⟩
  | none =>
  match env.getNpmPackage mod.Path with
  | some pkg =>
      match env.getNpmPackage ("@types/" ++ mod.Path) with
      | some tp =>
          ⟨[(pkg, ResolveRule.npmPackage), (tp, ResolveRule.npmTypesAugmentation)],
            explainLog env frm mod pkg ResolveRule.npmPackage, false⟩
      | none =>
          ⟨[(pkg, ResolveRule.npmPackage)],
            explainLog env frm mod pkg ResolveRule.npmPackage, false⟩
  | none =>
  match env.getNpmPackage ("@types/" ++ mod.Path) with
  | some tp =>
      ⟨[(tp, ResolveRule.typesOnly)],
        explainLog env frm mod tp ResolveRule.typesOnly, false⟩
  | none =>
  if env.environmentType = EnvironmentType.node ∧ env.nodeImport mod.Path = true then
    match env.getNpmPackage ("@types/node") with
    | some tp => ⟨[(tp, ResolveRule.nodeNative)], [], false⟩
    | none => ⟨[], [], false⟩
  else if env.validateImportStatements then
    ⟨[], [LogEvent.unresolvedError mod.Path mod.SourcePath frm.render], true⟩
  else ⟨[], [], false⟩

/-- Lexicographic comparison of character lists by code point, the order
underlying Go's byte-wise string comparator (UTF-8 encoding preserves
code-point order). -/
def charListLt : List Char → List Char → Bool
  | _, [] => false
  | [], _ :: _ => true
  | a :: as, b :: bs =>
      if a.toNat < b.toNat then true
      else if b.toNat < a.toNat then false
      else charListLt as bs

/-- Embeds the string comparator of `treeset.NewWithStringComparator`. -/
def strLt (x y : String) : Bool := charListLt x.toList y.toList

/-- Embeds insertion into the sorted string tree set
(`treeset.NewWithStringComparator` plus `deps.Add`): insertion into a
strictly sorted list, keeping duplicates out. -/
def tsAdd : List String → String → List String
  | [], x => [x]
  | y :: ys, x =>
      if strLt x y then x :: y :: ys
      else if x = y then y :: ys
      else y :: tsAdd ys x

/-- The observable outcome of `ResolveModuleDeps` on one target: the
accumulated dependency set (sorted, de-duplicated), the log lines in
emission order, and the exit status (`some 1` models `os.Exit(1)` on the
fatal flag, `none` models a normal return). -/
structure ResolveResult where
  deps : List String
  logs : List LogEvent
  exitCode : Option Nat
deriving DecidableEq, Repr

/-- One iteration of the `ResolveModuleDeps` loop threaded through the
accumulator (dependency set, logs so far, fatal flag). -/
def runStep (env : ResolveEnv) (frm : Label)
    (acc : List String × List LogEvent × Bool) (mod : ImportStatement) :
    List String × List LogEvent × Bool :=
  let r := resolveImport env frm mod
  (r.adds.foldl (fun s p => tsAdd s p.1) acc.1, acc.2.1 ++ r.logs, acc.2.2 || r.fatal)

/-- Embeds `ResolveModuleDeps` (lines 117-244): fold the priority chain
over the import statements, then exit with status 1 when the fatal flag
was set, otherwise return the accumulated dependency set. -/
def resolveModuleDeps (env : ResolveEnv) (frm : Label)
    (modules : List ImportStatement) : ResolveResult :=
  let fin := modules.foldl (runStep env frm) ([], [], false)
  { deps := fin.1, logs := fin.2.1
    exitCode := if fin.2.2 = true then some 1 else none }

/-- Embeds the build-file expression type produced by the serialization
helper: string literals and list expressions. -/
inductive BzlExpr where
  | str (value : String)
  | list (elems : List BzlExpr)

/-- Embeds `convertDependencySetToExpr`: one string literal per
dependency, in the set's (sorted) iteration order. -/
def convertDependencySetToExpr (set : List String) : BzlExpr :=
  BzlExpr.list (set.map BzlExpr.str)

/-- The string values listed by a serialized deps expression. -/
def listStrings : BzlExpr → List String
  | BzlExpr.str v => [v]
  | BzlExpr.list es => es.filterMap (fun e =>
      match e with
      | BzlExpr.str v => some v
      | BzlExpr.list _ => none)

/-- True when the slash-separated path begins with a separator. -/
def isRooted (p : String) : Bool :=
  match p.toList with
  | c :: _ => c = '/'
  | [] => false

/-- The slash-separated segments of a path (an empty path gives one empty
segment, matching Go's `strings.Split`). -/
def splitSegsAux : List Char → List Char → List (List Char)
  | [], cur => [cur.reverse]
  | c :: cs, cur =>
      if c = '/' then cur.reverse :: splitSegsAux cs []
      else splitSegsAux cs (c :: cur)

/-- Splits a path string on the separator. -/
def splitSegs (s : String) : List String :=
  (splitSegsAux s.toList []).map String.mk

/-- Joins segments with the separator. -/
def joinSegs : List String → String
  | [] => ""
  | [x] => x
  | x :: y :: ys => x ++ "/" ++ joinSegs (y :: ys)

/-- One step of Go `path.Clean`'s element processing: skip empty and "."
segments, resolve ".." against the stack (kept reversed). -/
def cleanFold (rooted : Bool) (st : List String) (seg : String) : List String :=
  if seg = "" ∨ seg = "." then st
  else if seg = ".." then
    match st with
    | [] => if rooted then [] else [".."]
    | top :: rest => if top = ".." then seg :: st else rest
  else seg :: st

/-- Embeds Go `filepath.Clean` on slash-separated paths. -/
def filepathClean (p : String) : String :=
  if p = "" then "."
  else
    let rooted := isRooted p
    let st := (splitSegs p).foldl (cleanFold rooted) []
    let body := joinSegs st.reverse
    if rooted = true then (if body = "" then "/" else "/" ++ body)
    else (if body = "" then "." else body)

/-- Embeds Go `filepath.Join` on two elements: non-empty elements joined
with the separator, then cleaned; all-empty input stays empty. -/
def filepathJoin (a b : String) : String :=
  if a = "" ∧ b = "" then ""
  else if a = "" then filepathClean b
  else if b = "" then filepathClean a
  else filepathClean (a ++ "/" ++ b)

/-- Embeds Go `filepath.Dir`: everything up to the final separator,
cleaned; a path without separators gives ".". -/
def filepathDir (p : String) : String :=
  match (splitSegs p).dropLast with
  | [] => "."
  | segs => filepathClean (joinSegs segs ++ "/")

/-- Drops the common leading segments of two segment lists. -/
def dropCommonSegs : List String → List String → List String × List String
  | b :: bs, t :: ts =>
      if b = t then dropCommonSegs bs ts else (b :: bs, t :: ts)
  | bs, ts => (bs, ts)

/-- Embeds Go `filepath.Rel`: the target path expressed relative to the
base path (both cleaned first), `none` on the error cases (mixed
rooted/relative forms, or a base that would need to traverse an unknown
".." component). -/
def filepathRel (base targ : String) : Option String :=
  let base := filepathClean base
  let targ := filepathClean targ
  if targ = base then some (".")
  else
    let base := if base = "." then "" else base
    if (isRooted base ≠ isRooted targ) ∧ base ≠ "" then none
    else
      let bsegs := if base = "" then [] else splitSegs base
      let tsegs := splitSegs targ
      let pair := dropCommonSegs bsegs tsegs
      if pair.1.head? = some ("..") then none
      else some (joinSegs (List.replicate pair.1.length ("..") ++ pair.2))

/-- Modelled from the spec: the language identifier tagging every import
specification (declared in a configuration file outside the resolution
source). -/
def languageName : String := "ts"

/-- Modelled from the spec: the reserved index-file base name (declared
outside the resolution source). -/
def indexFileName : String := "index"

/-- Modelled from the spec: the known source-file extensions stripped
from import specifications (declared outside the resolution source). -/
def importExtensions : List String := [".tsx", ".ts", ".jsx", ".js"]

/-- True when the second character list is a leading run of the first. -/
def leadsWith : List Char → List Char → Bool
  | _, [] => true
  | [], _ :: _ => false
  | a :: as, b :: bs => if a = b then leadsWith as bs else false

/-- True when the string ends with the given suffix. -/
def endsWithStr (s post : String) : Bool :=
  leadsWith s.toList.reverse post.toList.reverse

/-- Drops the last `n` characters of a string. -/
def strDropRight (s : String) (n : Nat) : String :=
  String.mk ((s.toList.reverse.drop n).reverse)

/-- Modelled from the spec: `stripImportExtensions` removes a known
source-file extension so that an import of `x` matches a source file
`x.ts` (declared outside the resolution source). -/
def stripImportExtensions (p : String) : String :=
  match importExtensions.find? (fun ext => endsWithStr p ext) with
  | some ext => strDropRight p ext.toList.length
  | none => p

/-- Modelled from the spec: a source file is an index file when its base
name, extension-stripped, equals the reserved index name (declared
outside the resolution source). -/
def isIndexFile (p : String) : Bool :=
  stripImportExtensions (pathBase p) = indexFileName

/-- Embeds Go `strings.TrimRight`: removes every trailing character that
belongs to the cutset. -/
def trimRight (s cutset : String) : String :=
  String.mk ((s.toList.reverse.dropWhile (fun c => cutset.toList.contains c)).reverse)

/-- Embeds `resolve.ImportSpec`: a language-tagged import path. -/
structure ImportSpec where
  Lang : String
  Imp : String
deriving DecidableEq, Repr

/-- Embeds the body of the `srcs` loop of `Imports` (lines 36-66) for one
source file: the cleaned package-joined path, optionally its
base-directory-rebased form, each extension-stripped; index files
additionally register the trimmed containing directory of each spec. -/
def importsForSrc (pkg baseDir src0 : String) : List ImportSpec :=
  let src := filepathClean (filepathJoin pkg src0)
  let specs : List String :=
    [src] ++
      (match filepathRel baseDir src with
       | none => []
       | some rebased => if rebased ≠ src then [rebased] else [])
  specs.flatMap (fun spec0 =>
    let spec := stripImportExtensions spec0
    ImportSpec.mk languageName spec ::
      (if isIndexFile src = true then
        [ImportSpec.mk languageName (trimRight (filepathDir spec) indexFileName)]
      else []))

/-- Embeds `Imports` (lines 27-75): every import specification under
which the target's sources are addressable; an empty result is reported
as no value (`nil`). -/
def Imports (pkg baseDir : String) (srcs : List String) : Option (List ImportSpec) :=
  let provides := srcs.flatMap (importsForSrc pkg baseDir)
  if provides = [] then none else some provides

/-- A requesting target `//a:t` used by the concrete scenarios below. -/
def lblA : Label := Label.mk ("") ("a") ("t") false

/-- A first-party target `//b:u`. -/
def lblB : Label := Label.mk ("") ("b") ("u") false

/-- A first-party target `//c:v`. -/
def lblC : Label := Label.mk ("") ("c") ("v") false

/-- An import statement for the path "m" found in the file "a/s.ts". -/
def modM : ImportStatement := ImportStatement.mk ("m") ("a/s.ts")

/-- An import statement for the npm package name "foo". -/
def modFoo : ImportStatement := ImportStatement.mk ("foo") ("a/s.ts")

/-- An import statement for the Node built-in module "fs". -/
def modFs : ImportStatement := ImportStatement.mk ("fs") ("a/s.ts")

/-- An import statement for the npm package name "amod". -/
def modA : ImportStatement := ImportStatement.mk ("amod") ("a/s.ts")

/-- An import statement for the npm package name "bmod". -/
def modB : ImportStatement := ImportStatement.mk ("bmod") ("a/s.ts")

/-- A resolution environment in which every registry is empty. -/
def envBase : ResolveEnv where
  findRuleWithOverride := fun _ => none
  findRulesByImport := fun _ => []
  getNamedPackage := fun _ => none
  getImportableFile := fun _ => none
  getNpmPackage := fun _ => none
  environmentType := EnvironmentType.other
  nodeImport := fun _ => false
  validateImportStatements := false
  explainDependency := ""

/-- An override directive mapping "m" to the requesting target `//a:t`
itself while the first-party index also matches "m". -/
def envC1x : ResolveEnv := { envBase with
  findRuleWithOverride := fun p => if p = "m" then some lblA else none
  findRulesByImport := fun p => if p = "m" then [lblB] else [] }

/-- An override directive mapping "m" to `//c:v` while the first-party
index also matches "m". -/
def envC1w : ResolveEnv := { envBase with
  findRuleWithOverride := fun p => if p = "m" then some lblC else none
  findRulesByImport := fun p => if p = "m" then [lblB] else [] }

/-- A first-party index matching "m" with the requesting target itself
and one other target. -/
def envC2w : ResolveEnv := { envBase with
  findRulesByImport := fun p => if p = "m" then [lblA, lblB] else [] }

/-- A first-party index matching "m" ambiguously with two distinct
targets. -/
def envC3w : ResolveEnv := { envBase with
  findRulesByImport := fun p => if p = "m" then [lblB, lblC] else [] }

/-- An environment with every registry empty and validation enabled. -/
def envC4w : ResolveEnv := { envBase with validateImportStatements := true }

/-- An override directive for "foo" shadowing npm registrations of both
"foo" and "@types/foo". -/
def envC5x : ResolveEnv := { envBase with
  findRuleWithOverride := fun p => if p = "foo" then some lblB else none
  getNpmPackage := fun p =>
    if p = "foo" then some ("npm_foo")
    else if p = "@types/foo" then some ("types_foo") else none }

/-- An npm registry holding both "foo" and "@types/foo", with no other
rule matching. -/
def envC5w : ResolveEnv := { envBase with
  getNpmPackage := fun p =>
    if p = "foo" then some ("npm_foo")
    else if p = "@types/foo" then some ("types_foo") else none }

/-- An npm registry holding the packages "amod" and "bmod". -/
def envC6w : ResolveEnv := { envBase with
  getNpmPackage := fun p =>
    if p = "amod" then some ("pkg_a")
    else if p = "bmod" then some ("pkg_b") else none }

/-- A Node-environment package with "@types/node" registered, validation
enabled, and "fs" recognized as a built-in module. -/
def envC7w : ResolveEnv := { envBase with
  getNpmPackage := fun p => if p = "@types/node" then some ("types_node") else none
  environmentType := EnvironmentType.node
  nodeImport := fun p => p = "fs"
  validateImportStatements := true }

/-- An npm registry holding "foo" and "@types/foo" with the explain
target set to the typed-declarations package string. -/
def envC9x : ResolveEnv := { envC5w with explainDependency := "types_foo" }

/-- An npm registry holding "foo" with the explain target set to its
package string. -/
def envC9w : ResolveEnv := { envBase with
  getNpmPackage := fun p => if p = "foo" then some ("npm_foo") else none
  explainDependency := "npm_foo" }

/-- A first-party index whose only match for "m" is the requesting
target itself, with later registries populated and validation enabled. -/
def envC10w : ResolveEnv := { envBase with
  findRulesByImport := fun p => if p = "m" then [lblA] else []
  getNamedPackage := fun p => if p = "m" then some ("named_m") else none
  validateImportStatements := true }

/-- Two strings with equal character lists are equal. -/
theorem string_toList_inj {x y : String} (h : x.toList = y.toList) : x = y := by
  cases x
  cases y
  simp only [String.toList] at h
  exact congrArg String.mk h

/-- The character-list order is irreflexive. -/
theorem charListLt_irrefl : ∀ l : List Char, charListLt l l = false
  | [] => rfl
  | a :: as => by simp [charListLt, Nat.lt_irrefl, charListLt_irrefl as]

/-- The character-list order is asymmetric. -/
theorem charListLt_asymm : ∀ l1 l2 : List Char,
    charListLt l1 l2 = true → charListLt l2 l1 = false := by
  intro l1
  induction l1 with
  | nil =>
    intro l2 h
    cases l2 with
    | nil => simp [charListLt] at h
    | cons b bs => simp [charListLt]
  | cons a as ih =>
    intro l2 h
    cases l2 with
    | nil => simp [charListLt] at h
    | cons b bs =>
      simp only [charListLt] at h ⊢
      by_cases hab : a.toNat < b.toNat
      · simp [show ¬ b.toNat < a.toNat by omega, show ¬ a.toNat < b.toNat → False by omega, hab]
      · by_cases hba : b.toNat < a.toNat
        · simp [hab, hba] at h
        · simp only [hab, hba, if_neg, ite_false] at h ⊢
          simp [hab, hba, ih bs h]

/-- The character-list order is transitive. -/
theorem charListLt_trans : ∀ l1 l2 l3 : List Char,
    charListLt l1 l2 = true → charListLt l2 l3 = true → charListLt l1 l3 = true := by
  intro l1
  induction l1 with
  | nil =>
    intro l2 l3 h1 h2
    cases l2 with
    | nil => simp [charListLt] at h1
    | cons b bs =>
      cases l3 with
      | nil => simp [charListLt] at h2
      | cons c cs => simp [charListLt]
  | cons a as ih =>
    intro l2 l3 h1 h2
    cases l2 with
    | nil => simp [charListLt] at h1
    | cons b bs =>
      cases l3 with
      | nil => simp [charListLt] at h2
      | cons c cs =>
        simp only [charListLt] at h1 h2 ⊢
        by_cases hab : a.toNat < b.toNat
        · by_cases hbc : b.toNat < c.toNat
          · simp [show a.toNat < c.toNat from Nat.lt_trans hab hbc]
          · by_cases hcb : c.toNat < b.toNat
            · simp [hab, hbc, hcb] at h2
            · simp [show a.toNat < c.toNat by omega]
        · by_cases hba : b.toNat < a.toNat
          · simp [hab, hba] at h1
          · by_cases hbc : b.toNat < c.toNat
            · simp [show a.toNat < c.toNat by omega]
            · by_cases hcb : c.toNat < b.toNat
              · simp [hbc, hcb] at h2
              · have hac : ¬ a.toNat < c.toNat := by omega
                have hca : ¬ c.toNat < a.toNat := by omega
                simp only [hab, hba, ite_false, if_neg] at h1 h2
                simp only [hac, hca, ite_false, if_neg]
                simp [hab, hba, hbc, hcb, hac, hca] at h1 h2 ⊢
                exact ih bs cs h1 h2

/-- Two character lists that compare below each other in neither
direction are equal. -/
theorem charListLt_eq_of_not : ∀ l1 l2 : List Char,
    charListLt l1 l2 = false → charListLt l2 l1 = false → l1 = l2 := by
  intro l1
  induction l1 with
  | nil =>
    intro l2 h1 _
    cases l2 with
    | nil => rfl
    | cons b bs => simp [charListLt] at h1
  | cons a as ih =>
    intro l2 h1 h2
    cases l2 with
    | nil => simp [charListLt] at h2
    | cons b bs =>
      simp only [charListLt] at h1 h2
      by_cases hab : a.toNat < b.toNat
      · simp [hab] at h1
      · by_cases hba : b.toNat < a.toNat
        · simp [hab, hba] at h2
        · have hn : a.toNat = b.toNat := by omega
          have heq : a = b := Char.ext (UInt32.ext hn)
          simp [hab, hba] at h1 h2
          rw [heq, ih bs h1 h2]

/-- The string comparator is irreflexive. -/
theorem strLt_irrefl (x : String) : strLt x x = false :=
  charListLt_irrefl _

/-- The string comparator is asymmetric. -/
theorem strLt_asymm {x y : String} (h : strLt x y = true) : strLt y x = false :=
  charListLt_asymm _ _ h

/-- The string comparator is transitive. -/
theorem strLt_trans {x y z : String} (h1 : strLt x y = true) (h2 : strLt y z = true) :
    strLt x z = true :=
  charListLt_trans _ _ _ h1 h2

/-- Strings that compare below each other in neither direction are
equal. -/
theorem strLt_eq_of_not {x y : String} (h1 : strLt x y = false)
    (h2 : strLt y x = false) : x = y :=
  string_toList_inj (charListLt_eq_of_not _ _ h1 h2)

/-- Totality of the string comparator: distinct strings compare below in
one direction or the other. -/
theorem strLt_of_not {x y : String} (h1 : ¬ strLt x y = true) (h2 : x ≠ y) :
    strLt y x = true := by
  cases hz : strLt y x with
  | true => rfl
  | false =>
    have h1f : strLt x y = false := by
      cases hv : strLt x y with
      | true => exact absurd hv h1
      | false => rfl
    exact absurd (strLt_eq_of_not h1f hz) h2

/-- The elements of `tsAdd s x` are `x` and the elements of `s`. -/
theorem mem_tsAdd : ∀ (s : List String) (x y : String), y ∈ tsAdd s x ↔ y = x ∨ y ∈ s := by
  intro s x y
  induction s with
  | nil => simp [tsAdd]
  | cons z zs ih =>
    by_cases h1 : strLt x z = true
    · simp only [tsAdd, if_pos h1, List.mem_cons]
    · by_cases h2 : x = z
      · subst h2
        have hred : tsAdd (x :: zs) x = x :: zs := by
          rw [tsAdd, if_neg h1, if_pos rfl]
        rw [hred, List.mem_cons]
        tauto
      · simp only [tsAdd, if_neg h1, if_neg h2, List.mem_cons, ih]
        tauto

/-- `tsAdd` preserves strict sortedness under the string comparator. -/
theorem sorted_tsAdd : ∀ (s : List String) (x : String),
    List.Sorted (fun a b => strLt a b = true) s →
    List.Sorted (fun a b => strLt a b = true) (tsAdd s x) := by
  intro s x hs
  induction s with
  | nil => simp [tsAdd]
  | cons z zs ih =>
    rw [List.sorted_cons] at hs
    by_cases h1 : strLt x z = true
    · rw [tsAdd, if_pos h1, List.sorted_cons]
      refine ⟨?_, ?_⟩
      · intro b hb
        rcases List.mem_cons.mp hb with rfl | hb
        · exact h1
        · exact strLt_trans h1 (hs.1 b hb)
      · rw [List.sorted_cons]
        exact hs
    · by_cases h2 : x = z
      · rw [tsAdd, if_neg h1, if_pos h2, List.sorted_cons]
        exact hs
      · rw [tsAdd, if_neg h1, if_neg h2, List.sorted_cons]
        refine ⟨?_, ih hs.2⟩
        intro b hb
        rcases (mem_tsAdd zs x b).mp hb with rfl | hb
        · exact strLt_of_not h1 h2
        · exact hs.1 b hb

/-- The elements of a `tsAdd` fold are the seed's and the folded
list's. -/
theorem mem_foldl_tsAdd (l : List String) : ∀ (d : List String) (y : String),
    y ∈ l.foldl tsAdd d ↔ y ∈ d ∨ y ∈ l := by
  induction l with
  | nil =>
    intro d y
    simp
  | cons x xs ih =>
    intro d y
    rw [List.foldl_cons, ih, mem_tsAdd, List.mem_cons]
    tauto

/-- A `tsAdd` fold from a sorted seed stays sorted. -/
theorem sorted_foldl_tsAdd (l : List String) : ∀ d : List String,
    List.Sorted (fun a b => strLt a b = true) d →
    List.Sorted (fun a b => strLt a b = true) (l.foldl tsAdd d) := by
  induction l with
  | nil =>
    intro d hd
    simpa using hd
  | cons x xs ih =>
    intro d hd
    rw [List.foldl_cons]
    exact ih _ (sorted_tsAdd d x hd)

/-- Folding `tsAdd` over two lists with the same elements from the empty
set produces the same sorted list. -/
theorem foldl_tsAdd_ext {l1 l2 : List String} (h : ∀ x, x ∈ l1 ↔ x ∈ l2) :
    l1.foldl tsAdd [] = l2.foldl tsAdd [] := by
  haveI hi : IsIrrefl String (fun a b => strLt a b = true) := by
    refine ⟨fun a ha => ?_⟩
    rw [strLt_irrefl] at ha
    exact Bool.noConfusion ha
  haveI ha : IsAntisymm String (fun a b => strLt a b = true) := by
    refine ⟨fun a b h1 h2 => ?_⟩
    have h3 := strLt_asymm h1
    rw [h2] at h3
    exact Bool.noConfusion h3
  have s1 := sorted_foldl_tsAdd l1 [] (by simp)
  have s2 := sorted_foldl_tsAdd l2 [] (by simp)
  refine List.eq_of_perm_of_sorted ?_ s1 s2
  rw [List.perm_ext_iff_of_nodup (s1.nodup) (s2.nodup)]
  intro a
  rw [mem_foldl_tsAdd, mem_foldl_tsAdd]
  simp [h a]

/-- Componentwise description of the `ResolveModuleDeps` loop fold. -/
theorem foldl_runStep (env : ResolveEnv) (frm : Label) (modules : List ImportStatement) :
    ∀ (d : List String) (lg : List LogEvent) (b : Bool),
    modules.foldl (runStep env frm) (d, lg, b) =
      ((modules.flatMap fun m => (resolveImport env frm m).adds.map Prod.fst).foldl tsAdd d,
       lg ++ (modules.flatMap fun m => (resolveImport env frm m).logs),
       b || modules.any fun m => (resolveImport env frm m).fatal) := by
  induction modules with
  | nil =>
    intro d lg b
    simp
  | cons m ms ih =>
    intro d lg b
    rw [List.foldl_cons]
    show ms.foldl (runStep env frm) (runStep env frm (d, lg, b) m) = _
    rw [runStep, ih]
    simp [List.foldl_append, List.append_assoc, Bool.or_assoc, List.foldl_map]

/-- The dependency set of a run is the `tsAdd` fold of every added
dependency string, in import order. -/
theorem resolveModuleDeps_deps (env : ResolveEnv) (frm : Label)
    (modules : List ImportStatement) :
    (resolveModuleDeps env frm modules).deps =
      (modules.flatMap fun m => (resolveImport env frm m).adds.map Prod.fst).foldl tsAdd [] := by
  rw [resolveModuleDeps, foldl_runStep]

/-- The log of a run concatenates the per-import logs in import order. -/
theorem resolveModuleDeps_logs (env : ResolveEnv) (frm : Label)
    (modules : List ImportStatement) :
    (resolveModuleDeps env frm modules).logs =
      modules.flatMap fun m => (resolveImport env frm m).logs := by
  rw [resolveModuleDeps, foldl_runStep]
  rfl

/-- The run exits with status 1 exactly when some import set the fatal
flag. -/
theorem resolveModuleDeps_exitCode (env : ResolveEnv) (frm : Label)
    (modules : List ImportStatement) :
    (resolveModuleDeps env frm modules).exitCode =
      (if (modules.any fun m => (resolveImport env frm m).fatal) = true then some 1 else none) := by
  rw [resolveModuleDeps, foldl_runStep]
  rfl

/-- `any` depends only on which elements the list contains. -/
theorem any_ext {α : Type} {l1 l2 : List α} (h : ∀ x, x ∈ l1 ↔ x ∈ l2) (f : α → Bool) :
    l1.any f = l2.any f := by
  rw [Bool.eq_iff_iff]
  simp only [List.any_eq_true]
  constructor
  · rintro ⟨x, hx, hfx⟩
    exact ⟨x, (h x).mp hx, hfx⟩
  · rintro ⟨x, hx, hfx⟩
    exact ⟨x, (h x).mpr hx, hfx⟩

/-- Serializing a dependency set lists exactly its strings, in order. -/
theorem listStrings_convert (s : List String) :
    listStrings (convertDependencySetToExpr s) = s := by
  rw [convertDependencySetToExpr, listStrings]
  induction s with
  | nil => rfl
  | cons x xs ih =>
    rw [List.map_cons, List.filterMap_cons]
    simpa using ih

/-- Inversion on one resolution step: every added dependency string comes
from the override branch (with an override that, after repository
defaulting, differs from the requesting target), from the first-party
index branch (with a match different from the requesting target), or from
one of the registry branches; and except for the typed-declarations
augmentation and the native-module fallback, the step's log is exactly
the explain log for the added string and rule. -/
theorem resolveImport_adds_inv (env : ResolveEnv) (frm : Label) (mod : ImportStatement)
    (s : String) (r : ResolveRule)
    (hmem : (s, r) ∈ (resolveImport env frm mod).adds) :
    ((∃ o, env.findRuleWithOverride mod.Path = some o ∧ overrideDefaulted o frm ≠ frm ∧
        s = overrideRendered o frm ∧ r = ResolveRule.overrideDirective) ∨
     (∃ m, env.findRuleWithOverride mod.Path = none ∧
        m ∈ env.findRulesByImport mod.Path ∧ m ≠ frm ∧
        s = (m.Rel frm.Repo frm.Pkg).render ∧ r = ResolveRule.firstPartyIndex) ∨
     (r = ResolveRule.namedPackage ∨ r = ResolveRule.importableFile ∨
      r = ResolveRule.npmPackage ∨ r = ResolveRule.npmTypesAugmentation ∨
      r = ResolveRule.typesOnly ∨ r = ResolveRule.nodeNative)) ∧
    (r ≠ ResolveRule.npmTypesAugmentation → r ≠ ResolveRule.nodeNative →
      (resolveImport env frm mod).logs = explainLog env frm mod s r) := by
  cases hov : env.findRuleWithOverride mod.Path with
  | some o =>
    by_cases hd : overrideDefaulted o frm = frm
    · have hstep : resolveImport env frm mod = ⟨[], [], false⟩ := by
        simp only [resolveImport, hov, if_pos hd]
      rw [hstep] at hmem
      simp at hmem
    · have hstep : resolveImport env frm mod =
          ⟨[(overrideRendered o frm, ResolveRule.overrideDirective)],
            explainLog env frm mod (overrideRendered o frm) ResolveRule.overrideDirective,
            false⟩ := by
        simp only [resolveImport, hov, if_neg hd]
      rw [hstep] at hmem
      rw [List.mem_singleton, Prod.mk.injEq] at hmem
      obtain ⟨hs, hr⟩ := hmem
      subst hs
      subst hr
      refine ⟨Or.inl ⟨o, rfl, hd, rfl, rfl⟩, ?_⟩
      intro _ _
      rw [hstep]
  | none =>
    cases hix : env.findRulesByImport mod.Path with
    | cons m0 rest =>
      cases hf : (m0 :: rest).filter (fun m => m ≠ frm) with
      | nil =>
        have hstep : resolveImport env frm mod = ⟨[], [], false⟩ := by
          simp only [resolveImport, hov, hix, hf]
        rw [hstep] at hmem
        simp at hmem
      | cons mf restf =>
        cases restf with
        | nil =>
          have hstep : resolveImport env frm mod =
              ⟨[((mf.Rel frm.Repo frm.Pkg).render, ResolveRule.firstPartyIndex)],
                explainLog env frm mod ((mf.Rel frm.Repo frm.Pkg).render)
                  ResolveRule.firstPartyIndex, false⟩ := by
            simp only [resolveImport, hov, hix, hf]
          rw [hstep] at hmem
          rw [List.mem_singleton, Prod.mk.injEq] at hmem
          obtain ⟨hs, hr⟩ := hmem
          subst hs
          subst hr
          have hmf : mf ∈ (m0 :: rest).filter (fun m => m ≠ frm) := by
            rw [hf]
            exact List.mem_singleton.mpr rfl
          rw [List.mem_filter] at hmf
          refine ⟨Or.inr (Or.inl ⟨mf, rfl, hmf.1, ?_, rfl, rfl⟩), ?_⟩
          · simpa using hmf.2
          · intro _ _
            rw [hstep]
        | cons mf2 restf2 =>
          have hstep : resolveImport env frm mod =
              ⟨[], [LogEvent.ambiguityError (targetListFromResults (mf :: mf2 :: restf2))
                mod.Path mod.SourcePath], true⟩ := by
            simp only [resolveImport, hov, hix, hf]
          rw [hstep] at hmem
          simp at hmem
    | nil =>
      cases hnp : env.getNamedPackage mod.Path with
      | some pkg =>
        have hstep : resolveImport env frm mod =
            ⟨[(pkg, ResolveRule.namedPackage)],
              explainLog env frm mod pkg ResolveRule.namedPackage, false⟩ := by
          simp only [resolveImport, hov, hix, hnp]
        rw [hstep] at hmem
        rw [List.mem_singleton, Prod.mk.injEq] at hmem
        obtain ⟨hs, hr⟩ := hmem
        subst hs
        subst hr
        refine ⟨Or.inr (Or.inr (Or.inl rfl)), ?_⟩
        intro _ _
        rw [hstep]
      | none =>
        cases himp : env.getImportableFile mod.Path with
        | some pkg =>
          have hstep : resolveImport env frm mod =
              ⟨[(pkg, ResolveRule.importableFile)],
                explainLog env frm mod pkg ResolveRule.importableFile, false⟩ := by
            simp only [resolveImport, hov, hix, hnp, himp]
          rw [hstep] at hmem
          rw [List.mem_singleton, Prod.mk.injEq] at hmem
          obtain ⟨hs, hr⟩ := hmem
          subst hs
          subst hr
          refine ⟨Or.inr (Or.inr (Or.inr (Or.inl rfl))), ?_⟩
          intro _ _
          rw [hstep]
        | none =>
          cases hnpm : env.getNpmPackage mod.Path with
          | some pkg =>
            cases htp : env.getNpmPackage ("@types/" ++ mod.Path) with
            | some tp =>
              have hstep : resolveImport env frm mod =
                  ⟨[(pkg, ResolveRule.npmPackage), (tp, ResolveRule.npmTypesAugmentation)],
                    explainLog env frm mod pkg ResolveRule.npmPackage, false⟩ := by
                simp only [resolveImport, hov, hix, hnp, himp, hnpm, htp]
              rw [hstep] at hmem
              rw [List.mem_cons, List.mem_singleton, Prod.mk.injEq, Prod.mk.injEq] at hmem
              rcases hmem with ⟨hs, hr⟩ | ⟨hs, hr⟩
              · subst hs
                subst hr
                refine ⟨Or.inr (Or.inr (Or.inr (Or.inr (Or.inl rfl)))), ?_⟩
                intro _ _
                rw [hstep]
              · subst hs
                subst hr
                refine ⟨Or.inr (Or.inr (Or.inr (Or.inr (Or.inr (Or.inl rfl))))), ?_⟩
                intro habs _
                exact absurd rfl habs
            | none =>
              have hstep : resolveImport env frm mod =
                  ⟨[(pkg, ResolveRule.npmPackage)],
                    explainLog env frm mod pkg ResolveRule.npmPackage, false⟩ := by
                simp only [resolveImport, hov, hix, hnp, himp, hnpm, htp]
              rw [hstep] at hmem
              rw [List.mem_singleton, Prod.mk.injEq] at hmem
              obtain ⟨hs, hr⟩ := hmem
              subst hs
              subst hr
              refine ⟨Or.inr (Or.inr (Or.inr (Or.inr (Or.inl rfl)))), ?_⟩
              intro _ _
              rw [hstep]
          | none =>
            cases hto : env.getNpmPackage ("@types/" ++ mod.Path) with
            | some tp =>
              have hstep : resolveImport env frm mod =
                  ⟨[(tp, ResolveRule.typesOnly)],
                    explainLog env frm mod tp ResolveRule.typesOnly, false⟩ := by
                simp only [resolveImport, hov, hix, hnp, himp, hnpm, hto]
              rw [hstep] at hmem
              rw [List.mem_singleton, Prod.mk.injEq] at hmem
              obtain ⟨hs, hr⟩ := hmem
              subst hs
              subst hr
              refine ⟨Or.inr (Or.inr (Or.inr (Or.inr (Or.inr (Or.inr (Or.inl rfl)))))), ?_⟩
              intro _ _
              rw [hstep]
            | none =>
              by_cases hnode : env.environmentType = EnvironmentType.node ∧
                  env.nodeImport mod.Path = true
              · cases htn : env.getNpmPackage ("@types/node") with
                | some tp =>
                  have hstep : resolveImport env frm mod =
                      ⟨[(tp, ResolveRule.nodeNative)], [], false⟩ := by
                    simp only [resolveImport, hov, hix, hnp, himp, hnpm, hto, if_pos hnode,
                      htn]
                  rw [hstep] at hmem
                  rw [List.mem_singleton, Prod.mk.injEq] at hmem
                  obtain ⟨hs, hr⟩ := hmem
                  subst hs
                  subst hr
                  refine ⟨Or.inr (Or.inr (Or.inr (Or.inr (Or.inr (Or.inr (Or.inr rfl)))))), ?_⟩
                  intro _ habs
                  exact absurd rfl habs
                | none =>
                  have hstep : resolveImport env frm mod = ⟨[], [], false⟩ := by
                    simp only [resolveImport, hov, hix, hnp, himp, hnpm, hto, if_pos hnode,
                      htn]
                  rw [hstep] at hmem
                  simp at hmem
              · by_cases hval : env.validateImportStatements = true
                · have hstep : resolveImport env frm mod =
                      ⟨[], [LogEvent.unresolvedError mod.Path mod.SourcePath frm.render],
                        true⟩ := by
                    simp only [resolveImport, hov, hix, hnp, himp, hnpm, hto, if_neg hnode,
                      if_pos hval]
                  rw [hstep] at hmem
                  simp at hmem
                · have hstep : resolveImport env frm mod = ⟨[], [], false⟩ := by
                    simp only [resolveImport, hov, hix, hnp, himp, hnpm, hto, if_neg hnode,
                      if_neg hval]
                  rw [hstep] at hmem
                  simp at hmem

/-- C1 (counterexample): an override directive mapping "m" to the
requesting target itself coexists with a first-party index match for
"m", yet the run adds nothing at all — the override's rendered label is
not in the dependency set, contradicting the claim as stated. -/
theorem C1_counterexample :
    envC1x.findRuleWithOverride modM.Path = some lblA ∧
    envC1x.findRulesByImport modM.Path = [lblB] ∧
    (resolveModuleDeps envC1x lblA [modM]).deps = [] := by
  refine ⟨rfl, rfl, ?_⟩
  decide

/-- C1 (amended): for an import with an override directive, whenever the
override does not resolve (after repository defaulting) to the requesting
target, the override's rendered label is the single dependency added, and
the first-party index is never consulted: the step's outcome is invariant
under arbitrary replacement of the index lookup. -/
theorem C1_override_precedence (env : ResolveEnv) (frm : Label)
    (mod : ImportStatement) (o : Label)
    (ho : env.findRuleWithOverride mod.Path = some o)
    (hne : overrideDefaulted o frm ≠ frm) :
    (resolveImport env frm mod).adds =
      [(overrideRendered o frm, ResolveRule.overrideDirective)] ∧
    (∀ ix : String → List Label,
      resolveImport { env with findRulesByImport := ix } frm mod =
        resolveImport env frm mod) := by
  have hstep : resolveImport env frm mod =
      ⟨[(overrideRendered o frm, ResolveRule.overrideDirective)],
        explainLog env frm mod (overrideRendered o frm) ResolveRule.overrideDirective,
        false⟩ := by
    simp only [resolveImport, ho, if_neg hne]
  refine ⟨by rw [hstep], ?_⟩
  intro ix
  have hstep2 : resolveImport { env with findRulesByImport := ix } frm mod =
      ⟨[(overrideRendered o frm, ResolveRule.overrideDirective)],
        explainLog { env with findRulesByImport := ix } frm mod (overrideRendered o frm)
          ResolveRule.overrideDirective, false⟩ := by
    simp only [resolveImport, ho, if_neg hne]
  rw [hstep2, hstep]
  rfl

/-- C1 (witness): the amended claim applied to the override `//c:v` for
"m" in the presence of an index match. -/
theorem C1_override_precedence_witness :
    (resolveImport envC1w lblA modM).adds =
      [(overrideRendered lblC lblA, ResolveRule.overrideDirective)] ∧
    (∀ ix : String → List Label,
      resolveImport { envC1w with findRulesByImport := ix } lblA modM =
        resolveImport envC1w lblA modM) :=
  C1_override_precedence envC1w lblA modM lblC rfl (by decide)

/-- C2: no resolution step adds the requesting target to its own
dependency set: a dependency added by the override rule comes from an
override that, after repository defaulting, differs from the requesting
target (a self-override is skipped), and a dependency added by the
first-party index rule comes from an index match different from the
requesting target (self-matches are filtered out before counting). -/
theorem C2_no_self_dependency (env : ResolveEnv) (frm : Label) (mod : ImportStatement)
    (s : String) (r : ResolveRule)
    (hmem : (s, r) ∈ (resolveImport env frm mod).adds) :
    (r = ResolveRule.overrideDirective →
      ∃ o, env.findRuleWithOverride mod.Path = some o ∧
        overrideDefaulted o frm ≠ frm ∧ s = overrideRendered o frm) ∧
    (r = ResolveRule.firstPartyIndex →
      ∃ m, m ∈ env.findRulesByImport mod.Path ∧ m ≠ frm ∧
        s = (m.Rel frm.Repo frm.Pkg).render) := by
  obtain ⟨hbr, -⟩ := resolveImport_adds_inv env frm mod s r hmem
  rcases hbr with ⟨o, h1, h2, h3, h4⟩ | ⟨m, h1, h2, h3, h4, h5⟩ | hlate
  · subst h4
    exact ⟨fun _ => ⟨o, h1, h2, h3⟩, fun h => ResolveRule.noConfusion h⟩
  · subst h5
    exact ⟨fun h => ResolveRule.noConfusion h, fun _ => ⟨m, h2, h3, h4⟩⟩
  · constructor
    · intro hr
      subst hr
      rcases hlate with h | h | h | h | h | h <;> exact ResolveRule.noConfusion h
    · intro hr
      subst hr
      rcases hlate with h | h | h | h | h | h <;> exact ResolveRule.noConfusion h

/-- C2 (witness): the invariant applied to an index whose matches for
"m" are the requesting target itself and `//b:u`; the filtered match
`//b:u` is the added dependency. -/
theorem C2_no_self_dependency_witness :
    (ResolveRule.firstPartyIndex = ResolveRule.overrideDirective →
      ∃ o, envC2w.findRuleWithOverride modM.Path = some o ∧
        overrideDefaulted o lblA ≠ lblA ∧ ("//b:u") = overrideRendered o lblA) ∧
    (ResolveRule.firstPartyIndex = ResolveRule.firstPartyIndex →
      ∃ m, m ∈ envC2w.findRulesByImport modM.Path ∧ m ≠ lblA ∧
        ("//b:u") = (m.Rel lblA.Repo lblA.Pkg).render) :=
  C2_no_self_dependency envC2w lblA modM ("//b:u") ResolveRule.firstPartyIndex (by decide)

/-- C3: with no override directive and more than one first-party index
candidate left after self-exclusion, the step adds no dependency, logs
one ambiguity error naming all candidate labels, the import path and the
source file, and sets the fatal flag; wherever the import sits in the
list, the remaining imports are still processed (their logs are emitted)
and the run exits with status exactly 1. -/
theorem C3_fatal_ambiguity (env : ResolveEnv) (frm : Label) (mod : ImportStatement)
    (ho : env.findRuleWithOverride mod.Path = none)
    (hamb : 2 ≤ ((env.findRulesByImport mod.Path).filter (fun m => m ≠ frm)).length) :
    (resolveImport env frm mod).adds = [] ∧
    (resolveImport env frm mod).logs =
      [LogEvent.ambiguityError
        (targetListFromResults ((env.findRulesByImport mod.Path).filter (fun m => m ≠ frm)))
        mod.Path mod.SourcePath] ∧
    (resolveImport env frm mod).fatal = true ∧
    (∀ pre post : List ImportStatement,
      (resolveModuleDeps env frm (pre ++ mod :: post)).exitCode = some 1 ∧
      (resolveModuleDeps env frm (pre ++ mod :: post)).logs =
        (pre.flatMap fun m2 => (resolveImport env frm m2).logs) ++
        (resolveImport env frm mod).logs ++
        (post.flatMap fun m2 => (resolveImport env frm m2).logs)) := by
  cases hix : env.findRulesByImport mod.Path with
  | nil =>
    rw [hix] at hamb
    simp at hamb
  | cons m0 rest =>
    rw [hix] at hamb
    cases hf : (m0 :: rest).filter (fun m => m ≠ frm) with
    | nil =>
      rw [hf] at hamb
      simp at hamb
    | cons mf restf =>
      cases restf with
      | nil =>
        rw [hf] at hamb
        simp at hamb
      | cons mf2 more =>
        have hstep : resolveImport env frm mod =
            ⟨[], [LogEvent.ambiguityError (targetListFromResults (mf :: mf2 :: more))
              mod.Path mod.SourcePath], true⟩ := by
          simp only [resolveImport, ho, hix, hf]
        refine ⟨by rw [hstep], ?_, by rw [hstep], ?_⟩
        · rw [hstep]
        · intro pre post
          have hany : ((pre ++ mod :: post).any fun m => (resolveImport env frm m).fatal)
              = true := by
            rw [List.any_eq_true]
            exact ⟨mod, by simp, by rw [hstep]⟩
          constructor
          · rw [resolveModuleDeps_exitCode]
            simp [hany]
          · rw [resolveModuleDeps_logs]
            simp [List.append_assoc]

/-- C3 (witness): the ambiguity behaviour on an index matching "m" with
the two distinct targets `//b:u` and `//c:v`. -/
theorem C3_fatal_ambiguity_witness :
    (resolveImport envC3w lblA modM).adds = [] ∧
    (resolveImport envC3w lblA modM).logs =
      [LogEvent.ambiguityError
        (targetListFromResults
          ((envC3w.findRulesByImport modM.Path).filter (fun m => m ≠ lblA)))
        modM.Path modM.SourcePath] ∧
    (resolveImport envC3w lblA modM).fatal = true ∧
    (∀ pre post : List ImportStatement,
      (resolveModuleDeps envC3w lblA (pre ++ modM :: post)).exitCode = some 1 ∧
      (resolveModuleDeps envC3w lblA (pre ++ modM :: post)).logs =
        (pre.flatMap fun m2 => (resolveImport envC3w lblA m2).logs) ++
        (resolveImport envC3w lblA modM).logs ++
        (post.flatMap fun m2 => (resolveImport envC3w lblA m2).logs)) :=
  C3_fatal_ambiguity envC3w lblA modM rfl (by decide)

/-- C4: when no resolution rule matches an import, a package with the
validation flag enabled logs one unresolved-import error naming the
path and source file of the import and the run exits with status 1 after
the list is processed; with the flag disabled the import adds no
dependency, logs nothing, and the run returns normally. -/
theorem C4_unresolved_validation (env : ResolveEnv) (frm : Label) (mod : ImportStatement)
    (h1 : env.findRuleWithOverride mod.Path = none)
    (h2 : env.findRulesByImport mod.Path = [])
    (h3 : env.getNamedPackage mod.Path = none)
    (h4 : env.getImportableFile mod.Path = none)
    (h5 : env.getNpmPackage mod.Path = none)
    (h6 : env.getNpmPackage ("@types/" ++ mod.Path) = none)
    (h7 : env.environmentType = EnvironmentType.node → env.nodeImport mod.Path = false) :
    (env.validateImportStatements = true →
      resolveImport env frm mod =
        ⟨[], [LogEvent.unresolvedError mod.Path mod.SourcePath frm.render], true⟩ ∧
      (resolveModuleDeps env frm [mod]).deps = [] ∧
      (resolveModuleDeps env frm [mod]).exitCode = some 1) ∧
    (env.validateImportStatements = false →
      resolveImport env frm mod = ⟨[], [], false⟩ ∧
      (resolveModuleDeps env frm [mod]).deps = [] ∧
      (resolveModuleDeps env frm [mod]).exitCode = none) := by
  have hnode : ¬ (env.environmentType = EnvironmentType.node ∧
      env.nodeImport mod.Path = true) := by
    rintro ⟨he, hn⟩
    rw [h7 he] at hn
    exact Bool.noConfusion hn
  constructor
  · intro hv
    have hstep : resolveImport env frm mod =
        ⟨[], [LogEvent.unresolvedError mod.Path mod.SourcePath frm.render], true⟩ := by
      simp only [resolveImport, h1, h2, h3, h4, h5, h6, if_neg hnode, if_pos hv]
    refine ⟨hstep, ?_, ?_⟩
    · rw [resolveModuleDeps_deps]
      simp [hstep]
    · rw [resolveModuleDeps_exitCode]
      have hany : ([mod].any fun m => (resolveImport env frm m).fatal) = true := by
        simp [hstep]
      simp [hany]
  · intro hv
    have hstep : resolveImport env frm mod = ⟨[], [], false⟩ := by
      simp only [resolveImport, h1, h2, h3, h4, h5, h6, if_neg hnode]
      simp [hv]
    refine ⟨hstep, ?_, ?_⟩
    · rw [resolveModuleDeps_deps]
      simp [hstep]
    · rw [resolveModuleDeps_exitCode]
      simp [hstep]

/-- C4 (witness): the unresolved-import behaviour on an empty
environment with validation enabled. -/
theorem C4_unresolved_validation_witness :
    (envC4w.validateImportStatements = true →
      resolveImport envC4w lblA modM =
        ⟨[], [LogEvent.unresolvedError modM.Path modM.SourcePath lblA.render], true⟩ ∧
      (resolveModuleDeps envC4w lblA [modM]).deps = [] ∧
      (resolveModuleDeps envC4w lblA [modM]).exitCode = some 1) ∧
    (envC4w.validateImportStatements = false →
      resolveImport envC4w lblA modM = ⟨[], [], false⟩ ∧
      (resolveModuleDeps envC4w lblA [modM]).deps = [] ∧
      (resolveModuleDeps envC4w lblA [modM]).exitCode = none) :=
  C4_unresolved_validation envC4w lblA modM rfl rfl rfl rfl rfl rfl (by decide)

/-- C5 (counterexample): "foo" and "@types/foo" are both registered npm
packages, but an override directive for "foo" exists, so the resulting
dependency set contains only the override's label and neither package
string — the claim as stated fails without a proviso that no earlier
rule matches. -/
theorem C5_counterexample :
    envC5x.getNpmPackage ("foo") = some ("npm_foo") ∧
    envC5x.getNpmPackage ("@types/foo") = some ("types_foo") ∧
    (resolveModuleDeps envC5x lblA [modFoo]).deps = [("//b:u")] ∧
    ¬ ("npm_foo") ∈ (resolveModuleDeps envC5x lblA [modFoo]).deps ∧
    ¬ ("types_foo") ∈ (resolveModuleDeps envC5x lblA [modFoo]).deps := by
  refine ⟨rfl, rfl, ?_, ?_, ?_⟩ <;> decide

/-- C5 (amended): for an import reaching the third-party rule (no
override, no index match, no named-package or importable-file entry):
when both the import path and "@types/" followed by it are registered npm
packages, both package strings are added (and end up in the run's
dependency set); when only the "@types/" package is registered, exactly
that one is added. -/
theorem C5_typed_augmentation (env : ResolveEnv) (frm : Label) (mod : ImportStatement)
    (h1 : env.findRuleWithOverride mod.Path = none)
    (h2 : env.findRulesByImport mod.Path = [])
    (h3 : env.getNamedPackage mod.Path = none)
    (h4 : env.getImportableFile mod.Path = none) :
    (∀ pkg tp, env.getNpmPackage mod.Path = some pkg →
      env.getNpmPackage ("@types/" ++ mod.Path) = some tp →
      (resolveImport env frm mod).adds =
        [(pkg, ResolveRule.npmPackage), (tp, ResolveRule.npmTypesAugmentation)] ∧
      pkg ∈ (resolveModuleDeps env frm [mod]).deps ∧
      tp ∈ (resolveModuleDeps env frm [mod]).deps) ∧
    (∀ tp, env.getNpmPackage mod.Path = none →
      env.getNpmPackage ("@types/" ++ mod.Path) = some tp →
      (resolveImport env frm mod).adds = [(tp, ResolveRule.typesOnly)] ∧
      (resolveModuleDeps env frm [mod]).deps = [tp]) := by
  constructor
  · intro pkg tp hpkg htp
    have hstep : resolveImport env frm mod =
        ⟨[(pkg, ResolveRule.npmPackage), (tp, ResolveRule.npmTypesAugmentation)],
          explainLog env frm mod pkg ResolveRule.npmPackage, false⟩ := by
      simp only [resolveImport, h1, h2, h3, h4, hpkg, htp]
    refine ⟨by rw [hstep], ?_, ?_⟩
    · rw [resolveModuleDeps_deps, mem_foldl_tsAdd]
      right
      simp [hstep]
    · rw [resolveModuleDeps_deps, mem_foldl_tsAdd]
      right
      simp [hstep]
  · intro tp hpkg htp
    have hstep : resolveImport env frm mod =
        ⟨[(tp, ResolveRule.typesOnly)], explainLog env frm mod tp ResolveRule.typesOnly,
          false⟩ := by
      simp only [resolveImport, h1, h2, h3, h4, hpkg, htp]
    refine ⟨by rw [hstep], ?_⟩
    rw [resolveModuleDeps_deps]
    simp [hstep, tsAdd]

/-- C5 (witness): the amended claim applied to the npm registry holding
"foo" and "@types/foo". -/
theorem C5_typed_augmentation_witness :
    (∀ pkg tp, envC5w.getNpmPackage modFoo.Path = some pkg →
      envC5w.getNpmPackage ("@types/" ++ modFoo.Path) = some tp →
      (resolveImport envC5w lblA modFoo).adds =
        [(pkg, ResolveRule.npmPackage), (tp, ResolveRule.npmTypesAugmentation)] ∧
      pkg ∈ (resolveModuleDeps envC5w lblA [modFoo]).deps ∧
      tp ∈ (resolveModuleDeps envC5w lblA [modFoo]).deps) ∧
    (∀ tp, envC5w.getNpmPackage modFoo.Path = none →
      envC5w.getNpmPackage ("@types/" ++ modFoo.Path) = some tp →
      (resolveImport envC5w lblA modFoo).adds = [(tp, ResolveRule.typesOnly)] ∧
      (resolveModuleDeps envC5w lblA [modFoo]).deps = [tp]) :=
  C5_typed_augmentation envC5w lblA modFoo rfl rfl rfl rfl

/-- C6: two import-statement collections with the same elements — in any
orders and multiplicities — give the same dependency set and the same
exit status, and the serialized deps expression lists exactly the
dependency strings, strictly sorted by the string comparator and hence
de-duplicated. -/
theorem C6_order_independence (env : ResolveEnv) (frm : Label)
    (l1 l2 : List ImportStatement) (h : ∀ m, m ∈ l1 ↔ m ∈ l2) :
    (resolveModuleDeps env frm l1).deps = (resolveModuleDeps env frm l2).deps ∧
    (resolveModuleDeps env frm l1).exitCode = (resolveModuleDeps env frm l2).exitCode ∧
    listStrings (convertDependencySetToExpr (resolveModuleDeps env frm l1).deps) =
      (resolveModuleDeps env frm l1).deps ∧
    List.Sorted (fun a b => strLt a b = true)
      (listStrings (convertDependencySetToExpr (resolveModuleDeps env frm l1).deps)) ∧
    (listStrings (convertDependencySetToExpr (resolveModuleDeps env frm l1).deps)).Nodup := by
  have hsorted : List.Sorted (fun a b => strLt a b = true)
      (resolveModuleDeps env frm l1).deps := by
    rw [resolveModuleDeps_deps]
    exact sorted_foldl_tsAdd _ [] (by simp)
  refine ⟨?_, ?_, listStrings_convert _, ?_, ?_⟩
  · rw [resolveModuleDeps_deps, resolveModuleDeps_deps]
    refine foldl_tsAdd_ext ?_
    intro x
    simp only [List.mem_flatMap]
    constructor
    · rintro ⟨m, hm, hx⟩
      exact ⟨m, (h m).mp hm, hx⟩
    · rintro ⟨m, hm, hx⟩
      exact ⟨m, (h m).mpr hm, hx⟩
  · rw [resolveModuleDeps_exitCode, resolveModuleDeps_exitCode, any_ext h]
  · rw [listStrings_convert]
    exact hsorted
  · rw [listStrings_convert]
    haveI : IsIrrefl String (fun a b => strLt a b = true) := by
      refine ⟨fun a ha => ?_⟩
      rw [strLt_irrefl] at ha
      exact Bool.noConfusion ha
    exact hsorted.nodup

/-- C6 (witness): the determinism claim applied to the two orders of
the imports "amod" and "bmod". -/
theorem C6_order_independence_witness :
    (resolveModuleDeps envC6w lblA [modA, modB]).deps =
      (resolveModuleDeps envC6w lblA [modB, modA]).deps ∧
    (resolveModuleDeps envC6w lblA [modA, modB]).exitCode =
      (resolveModuleDeps envC6w lblA [modB, modA]).exitCode ∧
    listStrings (convertDependencySetToExpr (resolveModuleDeps envC6w lblA [modA, modB]).deps) =
      (resolveModuleDeps envC6w lblA [modA, modB]).deps ∧
    List.Sorted (fun a b => strLt a b = true)
      (listStrings
        (convertDependencySetToExpr (resolveModuleDeps envC6w lblA [modA, modB]).deps)) ∧
    (listStrings
      (convertDependencySetToExpr (resolveModuleDeps envC6w lblA [modA, modB]).deps)).Nodup :=
  C6_order_independence envC6w lblA [modA, modB] [modB, modA]
    (by
      intro m
      simp only [List.mem_cons, List.not_mem_nil, or_false]
      tauto)

/-- C7: for an import reaching the native-module rule in a Node-typed
package whose path is a recognized built-in: with "@types/node"
registered exactly that dependency is added and nothing else; without it
nothing is added and no error occurs — the step never logs and never
sets the fatal flag, independent of the validation flag. -/
theorem C7_node_native_fallback (env : ResolveEnv) (frm : Label) (mod : ImportStatement)
    (h1 : env.findRuleWithOverride mod.Path = none)
    (h2 : env.findRulesByImport mod.Path = [])
    (h3 : env.getNamedPackage mod.Path = none)
    (h4 : env.getImportableFile mod.Path = none)
    (h5 : env.getNpmPackage mod.Path = none)
    (h6 : env.getNpmPackage ("@types/" ++ mod.Path) = none)
    (h7 : env.environmentType = EnvironmentType.node)
    (h8 : env.nodeImport mod.Path = true) :
    (∀ tp, env.getNpmPackage ("@types/node") = some tp →
      resolveImport env frm mod = ⟨[(tp, ResolveRule.nodeNative)], [], false⟩ ∧
      (resolveModuleDeps env frm [mod]).deps = [tp] ∧
      (resolveModuleDeps env frm [mod]).exitCode = none) ∧
    (env.getNpmPackage ("@types/node") = none →
      resolveImport env frm mod = ⟨[], [], false⟩ ∧
      (resolveModuleDeps env frm [mod]).deps = [] ∧
      (resolveModuleDeps env frm [mod]).exitCode = none) := by
  constructor
  · intro tp htn
    have hstep : resolveImport env frm mod =
        ⟨[(tp, ResolveRule.nodeNative)], [], false⟩ := by
      simp only [resolveImport, h1, h2, h3, h4, h5, h6, if_pos (And.intro h7 h8), htn]
    refine ⟨hstep, ?_, ?_⟩
    · rw [resolveModuleDeps_deps]
      simp [hstep, tsAdd]
    · rw [resolveModuleDeps_exitCode]
      simp [hstep]
  · intro htn
    have hstep : resolveImport env frm mod = ⟨[], [], false⟩ := by
      simp only [resolveImport, h1, h2, h3, h4, h5, h6, if_pos (And.intro h7 h8), htn]
    refine ⟨hstep, ?_, ?_⟩
    · rw [resolveModuleDeps_deps]
      simp [hstep]
    · rw [resolveModuleDeps_exitCode]
      simp [hstep]

/-- C7 (witness): the native-module fallback applied to the import "fs"
in a Node-typed package with "@types/node" registered and validation
enabled. -/
theorem C7_node_native_fallback_witness :
    (∀ tp, envC7w.getNpmPackage ("@types/node") = some tp →
      resolveImport envC7w lblA modFs = ⟨[(tp, ResolveRule.nodeNative)], [], false⟩ ∧
      (resolveModuleDeps envC7w lblA [modFs]).deps = [tp] ∧
      (resolveModuleDeps envC7w lblA [modFs]).exitCode = none) ∧
    (envC7w.getNpmPackage ("@types/node") = none →
      resolveImport envC7w lblA modFs = ⟨[], [], false⟩ ∧
      (resolveModuleDeps envC7w lblA [modFs]).deps = [] ∧
      (resolveModuleDeps envC7w lblA [modFs]).exitCode = none) :=
  C7_node_native_fallback envC7w lblA modFs rfl rfl rfl rfl rfl rfl rfl rfl

/-- C8: the index-file handling evaluated on concrete inputs. For the
package "a", the source `index.ts` registers "a/index" and the containing
directory "a", as the claim states; but for the package "en" the extra
specification is "" rather than the containing directory "en", because
the code trims every trailing character of the directory that belongs to
the index name's character set. -/
theorem C8_index_directory_eval :
    Imports ("a") ("") [("index.ts")] =
      some [ImportSpec.mk languageName ("a/index"), ImportSpec.mk languageName ("a")] ∧
    Imports ("en") ("") [("index.ts")] =
      some [ImportSpec.mk languageName ("en/index"), ImportSpec.mk languageName ("")] ∧
    trimRight (filepathDir ("en/index")) indexFileName = ("") := by
  refine ⟨?_, ?_, ?_⟩ <;> decide

/-- C9 (counterexample): the typed-declarations augmentation adds
"types_foo" while the explain target equals "types_foo", yet the step
emits no log line at all — the augmentation add is not traced,
contradicting the claim's "every branch" coverage. -/
theorem C9_counterexample :
    envC9x.explainDependency = ("types_foo") ∧
    (("types_foo"), ResolveRule.npmTypesAugmentation) ∈
      (resolveImport envC9x lblA modFoo).adds ∧
    (resolveImport envC9x lblA modFoo).logs = [] := by
  refine ⟨rfl, ?_, ?_⟩ <;> decide

/-- C9 (amended): whenever a resolution branch other than the
typed-declarations augmentation and the native-module fallback adds a
dependency string equal to the configured explain target, the step's log
contains the explain trace naming the dependency, the requesting target,
the source file, the import path and the producing rule; the two
excluded branches add their dependency without a trace. -/
theorem C9_explain_trace (env : ResolveEnv) (frm : Label) (mod : ImportStatement)
    (s : String) (r : ResolveRule)
    (hmem : (s, r) ∈ (resolveImport env frm mod).adds)
    (hexp : env.explainDependency = s)
    (h1 : r ≠ ResolveRule.npmTypesAugmentation)
    (h2 : r ≠ ResolveRule.nodeNative) :
    LogEvent.explain s frm.render mod.SourcePath mod.Path r ∈
      (resolveImport env frm mod).logs := by
  obtain ⟨-, hlogs⟩ := resolveImport_adds_inv env frm mod s r hmem
  rw [hlogs h1 h2, explainLog, if_pos hexp]
  exact List.mem_singleton.mpr rfl

/-- C9 (witness): the explain trace emitted for the third-party rule's
add of "npm_foo" when the explain target is "npm_foo". -/
theorem C9_explain_trace_witness :
    LogEvent.explain ("npm_foo") lblA.render modFoo.SourcePath modFoo.Path
      ResolveRule.npmPackage ∈ (resolveImport envC9w lblA modFoo).logs :=
  C9_explain_trace envC9w lblA modFoo ("npm_foo") ResolveRule.npmPackage (by decide) rfl
    (by decide) (by decide)

/-- C10: when the first-party index matches an import but every match is
the requesting target itself, the step adds nothing, logs nothing and
sets no fatal flag, and none of the later rules is consulted: the
outcome is the same for every choice of named-package, importable-file
and npm registries, environment type, built-in predicate and validation
flag; the single-import run returns normally with an empty set. -/
theorem C10_self_only_matches (env : ResolveEnv) (frm : Label) (mod : ImportStatement)
    (ho : env.findRuleWithOverride mod.Path = none)
    (hne : env.findRulesByImport mod.Path ≠ [])
    (hall : ∀ m ∈ env.findRulesByImport mod.Path, m = frm) :
    resolveImport env frm mod = ⟨[], [], false⟩ ∧
    (∀ (np imf npmf : String → Option String) (et : EnvironmentType)
        (ni : String → Bool) (vl : Bool),
      resolveImport
        (ResolveEnv.mk env.findRuleWithOverride env.findRulesByImport np imf npmf et ni vl
          env.explainDependency) frm mod = ⟨[], [], false⟩) ∧
    (resolveModuleDeps env frm [mod]).deps = [] ∧
    (resolveModuleDeps env frm [mod]).exitCode = none := by
  have hgen : ∀ (np imf npmf : String → Option String) (et : EnvironmentType)
      (ni : String → Bool) (vl : Bool),
      resolveImport (ResolveEnv.mk env.findRuleWithOverride env.findRulesByImport np imf
        npmf et ni vl env.explainDependency) frm mod = ⟨[], [], false⟩ := by
    intro np imf npmf et ni vl
    cases hix : env.findRulesByImport mod.Path with
    | nil => exact absurd hix hne
    | cons m0 rest =>
      have hfil : (m0 :: rest).filter (fun m => m ≠ frm) = [] := by
        rw [List.filter_eq_nil_iff]
        intro a ha
        have haf : a = frm := hall a (by rw [hix]; exact ha)
        simp [haf]
      simp only [resolveImport, ho, hix, hfil]
  have hself : resolveImport env frm mod = ⟨[], [], false⟩ :=
    hgen env.getNamedPackage env.getImportableFile env.getNpmPackage env.environmentType
      env.nodeImport env.validateImportStatements
  refine ⟨hself, hgen, ?_, ?_⟩
  · rw [resolveModuleDeps_deps]
    simp [hself]
  · rw [resolveModuleDeps_exitCode]
    simp [hself]

/-- C10 (witness): the fall-through-free behaviour on an index whose
only match for "m" is the requesting target, while a named-package entry
for "m" exists and validation is enabled. -/
theorem C10_self_only_matches_witness :
    resolveImport envC10w lblA modM = ⟨[], [], false⟩ ∧
    (∀ (np imf npmf : String → Option String) (et : EnvironmentType)
        (ni : String → Bool) (vl : Bool),
      resolveImport
        (ResolveEnv.mk envC10w.findRuleWithOverride envC10w.findRulesByImport np imf npmf
          et ni vl envC10w.explainDependency) lblA modM = ⟨[], [], false⟩) ∧
    (resolveModuleDeps envC10w lblA [modM]).deps = [] ∧
    (resolveModuleDeps envC10w lblA [modM]).exitCode = none :=
  C10_self_only_matches envC10w lblA modM rfl (by decide) (by decide)

end RulesJS
